import Mathlib

/-!
# Verification of the collab-canvas session synchronization core

This file gives a shallow embedding of the session synchronization core of
the collab-canvas repository: the realtime room hook (`useRealtimeRoom`),
the shape-diff reconciler of the whiteboard canvas (`applySnapshotToEditor`
inside `WhiteboardCanvas`), the throttled code broadcaster
(`broadcastCodeUpdate`), the plain rate-limited whiteboard broadcaster
(`broadcastWhiteboard` / `broadcastSnapshot`), and the language
configuration table (`LANGUAGE_CONFIG`).  Pure functions of the source are
translated as Lean functions; the React ref/state cells become fields of
explicit state records, and each message handler becomes a state
transition function.  Theorems about these definitions settle the frozen
claims about the repository.
-/

namespace CollabCanvas

/-! ## Language configuration (src/types/editor.ts) -/

/-- The closed language enum of `src/types/editor.ts`. -/
inductive Language where
  | javascript
  | python
  | cpp
  | java
deriving DecidableEq, Repr

/-- One entry of `LANGUAGE_CONFIG`: label, file extension and canned
starter code. -/
structure LanguageInfo where
  label : String
  fileExt : String
  defaultCode : String
deriving DecidableEq, Repr

/-- The `LANGUAGE_CONFIG` table of `src/types/editor.ts`, with the canned
default code of every language reproduced verbatim. -/
def LANGUAGE_CONFIG : Language → LanguageInfo
  | .javascript =>
    { label := "JavaScript", fileExt := "js",
      defaultCode :=
        "// Welcome to CollabCode!\n// Write your JavaScript code here\n\n" ++
        "function greet(name) \x7b\n  return `Hello, $\x7bname\x7d! Welcome to CollabCode.`;\n\x7d\n\n" ++
        "console.log(greet(\"Developer\"));\n\n" ++
        "// Try modifying this code and click Run!\n" ++
        "const numbers = [1, 2, 3, 4, 5];\n" ++
        "const doubled = numbers.map(n => n * 2);\n" ++
        "console.log(\"Doubled:\", doubled);\n" }
  | .python =>
    { label := "Python", fileExt := "py",
      defaultCode :=
        "# Welcome to CollabCode!\n# Write your Python code here\n\n" ++
        "def greet(name):\n    return f\"Hello, \x7bname\x7d! Welcome to CollabCode.\"\n\n" ++
        "print(greet(\"Developer\"))\n\n" ++
        "# Try modifying this code and click Run!\n" ++
        "numbers = [1, 2, 3, 4, 5]\n" ++
        "doubled = [n * 2 for n in numbers]\n" ++
        "print(\"Doubled:\", doubled)\n" }
  | .cpp =>
    { label := "C++", fileExt := "cpp",
      defaultCode :=
        "// Welcome to CollabCode!\n// Write your C++ code here\n\n" ++
        "#include <iostream>\n#include <vector>\n#include <string>\n\n" ++
        "using namespace std;\n\n" ++
        "string greet(const string& name) \x7b\n" ++
        "    return \"Hello, \" + name + \"! Welcome to CollabCode.\";\n\x7d\n\n" ++
        "int main() \x7b\n    cout << greet(\"Developer\") << endl;\n    \n" ++
        "    vector<int> numbers = \x7b1, 2, 3, 4, 5\x7d;\n" ++
        "    cout << \"Doubled: \";\n    for (int n : numbers) \x7b\n" ++
        "        cout << n * 2 << \" \";\n    \x7d\n    cout << endl;\n    \n" ++
        "    return 0;\n\x7d\n" }
  | .java =>
    { label := "Java", fileExt := "java",
      defaultCode :=
        "// Welcome to CollabCode!\n// Write your Java code here\n\n" ++
        "import java.util.*;\n\n" ++
        "public class Main \x7b\n" ++
        "    public static String greet(String name) \x7b\n" ++
        "        return \"Hello, \" + name + \"! Welcome to CollabCode.\";\n    \x7d\n    \n" ++
        "    public static void main(String[] args) \x7b\n" ++
        "        System.out.println(greet(\"Developer\"));\n        \n" ++
        "        int[] numbers = \x7b1, 2, 3, 4, 5\x7d;\n" ++
        "        System.out.print(\"Doubled: \");\n" ++
        "        for (int n : numbers) \x7b\n" ++
        "            System.out.print(n * 2 + \" \");\n        \x7d\n" ++
        "        System.out.println();\n    \x7d\n\x7d\n" }

/-! ## Shapes and the shape-diff reconciler (WhiteboardCanvas.tsx)

A tldraw shape record is modelled as a stable identifier together with the
rest of its serialized attributes.  `JSON.stringify` equality on two shape
records with the same fields coincides with structural equality of this
record, so the reconciler's string comparison is modelled as decidable
equality of `Shape`. -/

/-- A whiteboard shape: a stable id plus its remaining serialized
attributes. -/
structure Shape where
  id : String
  props : String
deriving DecidableEq, Repr

/-- `new Map(shapes.map(s => [s.id, s])).get i`: the JS `Map` built from an
entry list keeps, for every key, the value of the **last** entry with that
key, so lookup is `find?` on the reversed list. -/
def mapGet (shapes : List Shape) (i : String) : Option Shape :=
  shapes.reverse.find? (fun s => s.id == i)

/-- `new Map(shapes.map(s => [s.id, s])).has i`. -/
def hasId (shapes : List Shape) (i : String) : Bool :=
  shapes.any (fun s => s.id == i)

/-- The `toDelete` list of `applySnapshotToEditor`: current shapes whose id
is absent from the incoming snapshot. -/
def computeToDelete (current next : List Shape) : List Shape :=
  current.filter (fun cur => !(hasId next cur.id))

/-- The `toCreate` list of `applySnapshotToEditor`: incoming shapes whose
id is absent from the current page. -/
def computeToCreate (current next : List Shape) : List Shape :=
  next.filter (fun n => (mapGet current n.id).isNone)

/-- The `toUpdate` list of `applySnapshotToEditor`: incoming shapes present
in both collections whose serialized value differs from the current one
(`JSON.stringify(cur) !== JSON.stringify(next)`). -/
def computeToUpdate (current next : List Shape) : List Shape :=
  next.filter (fun n =>
    match mapGet current n.id with
    | some cur => cur != n
    | none => false)

/-- `editor.deleteShapes dels`: removes the listed shapes (by id) from the
page. -/
def deleteShapes (shapes dels : List Shape) : List Shape :=
  shapes.filter (fun s => !(hasId dels s.id))

/-- `editor.createShapes news`: adds the listed shapes to the page. -/
def createShapes (shapes news : List Shape) : List Shape :=
  shapes ++ news

/-- `editor.updateShapes upds`: replaces every page shape whose id occurs
in the update list by the updated record. -/
def updateShapes (shapes upds : List Shape) : List Shape :=
  shapes.map (fun s =>
    match mapGet upds s.id with
    | some u => u
    | none => s)

/-- `applySnapshotToEditor` of `WhiteboardCanvas.tsx`: computes the three
diff lists against the current page shapes and applies deletions, then
creations, then updates (the `run` batching only groups the three calls
and does not change the result). -/
def applySnapshotToEditor (current next : List Shape) : List Shape :=
  updateShapes
    (createShapes
      (deleteShapes current (computeToDelete current next))
      (computeToCreate current next))
    (computeToUpdate current next)

/-! ## Room data model and realtime handlers (useRealtimeRoom, part of the
repository's realtime hook)

The React hook state (`useState` values and the `useRef` cells) becomes an
explicit `ClientState` record, the localStorage rooms object becomes an
association list, and every channel handler becomes a state transition.
Messages sent on the channel are accumulated in the `sent` log; the
presence `track` calls go through a different transport primitive and are
not part of the broadcast log. -/

/-- The `Room` interface of `src/types/editor.ts`. -/
structure Room where
  id : String
  code : String
  language : Language
  isOwner : Bool
deriving DecidableEq, Repr

/-- One record of the `collabcode_rooms` localStorage map: the room fields
plus the `createdAt` stamp written by `saveToStorage`. -/
structure StoredRoom where
  id : String
  code : String
  language : Language
  createdAt : Nat
  isOwner : Bool
deriving DecidableEq, Repr

/-- The whiteboard snapshot exchanged on the wire: a list of shapes. -/
structure WhiteboardSnapshot where
  shapes : List Shape
deriving DecidableEq, Repr

/-- A broadcast envelope sent on the `room:{id}` channel.  The
`code_update` sent by `updateLanguage` carries no timestamp, so the
timestamp field is optional. -/
inductive Broadcast where
  | codeUpdate (code : String) (language : Language) (updatedBy : String)
      (timestamp : Option Nat)
  | requestState (userId : String)
  | syncState (code : String) (language : Language)
      (whiteboard : Option WhiteboardSnapshot) (fromOwner : Bool)
  | whiteboardUpdate (snapshot : WhiteboardSnapshot) (updatedBy : String)
      (timestamp : Nat)
deriving DecidableEq, Repr

/-- Payload of an inbound `code_update` message. -/
structure CodeUpdatePayload where
  code : String
  language : Language
  updatedBy : String
  timestamp : Option Nat
deriving DecidableEq, Repr

/-- Payload of an inbound `sync_state` message. -/
structure SyncStatePayload where
  code : String
  language : Language
  whiteboard : Option WhiteboardSnapshot
  fromOwner : Bool
deriving DecidableEq, Repr

/-- Payload of an inbound `whiteboard_update` message. -/
structure WhiteboardUpdatePayload where
  snapshot : WhiteboardSnapshot
  updatedBy : String
  timestamp : Nat
deriving DecidableEq, Repr

/-- The state of one peer's `useRealtimeRoom` hook: the `useState` values
(`room`, `isViewOnly`, `remoteWhiteboardSnapshot`), the `useRef` cells
(`userIdRef`, `isOwnerRef`, `whiteboardSnapshotRef`, `channelRef`), the
localStorage cache, and the log of messages sent on the channel. -/
structure ClientState where
  userId : String
  room : Option Room
  isViewOnly : Bool
  isOwner : Bool
  cache : List (String × StoredRoom)
  remoteWhiteboardSnapshot : Option WhiteboardSnapshot
  whiteboardSnapshot : Option WhiteboardSnapshot
  channel : Option String
  sent : List Broadcast
deriving DecidableEq, Repr

/-- `getStoredRoom id`: look the session id up in the localStorage rooms
map (`rooms[id] || null`). -/
def getStoredRoom (cache : List (String × StoredRoom)) (id : String) :
    Option StoredRoom :=
  (cache.find? (fun kv => kv.1 == id)).map (·.2)

/-- `saveToStorage roomData`: write `rooms[roomData.id] = { ...roomData,
createdAt: now }` back to the localStorage map. -/
def saveToStorage (cache : List (String × StoredRoom)) (roomData : Room)
    (now : Nat) : List (String × StoredRoom) :=
  let entry : StoredRoom :=
    { id := roomData.id, code := roomData.code, language := roomData.language,
      createdAt := now, isOwner := roomData.isOwner }
  if cache.any (fun kv => kv.1 == roomData.id) then
    cache.map (fun kv => if kv.1 == roomData.id then (kv.1, entry) else kv)
  else
    cache ++ [(roomData.id, entry)]

/-- The `code_update` handler of `subscribeToChannel`: ignore own echoes,
otherwise fold code and language into the room state, keeping a `null`
room untouched. -/
def handleCodeUpdate (st : ClientState) (payload : CodeUpdatePayload) :
    ClientState :=
  if payload.updatedBy != st.userId then
    { st with room :=
        match st.room with
        | none => none
        | some prev => some { prev with code := payload.code,
                                        language := payload.language } }
  else
    st

/-- The `request_state` handler of `subscribeToChannel`: only the owner
replies, and only when its session is present in the local cache; the
reply is a `sync_state` with the stored code and language, the latest
whiteboard snapshot ref, and `fromOwner: true`. -/
def handleRequestState (st : ClientState) (id : String) : ClientState :=
  if st.isOwner then
    match getStoredRoom st.cache id with
    | some currentRoom =>
        { st with sent := st.sent ++
            [Broadcast.syncState currentRoom.code currentRoom.language
              st.whiteboardSnapshot true] }
    | none => st
  else
    st

/-- The `sync_state` handler of `subscribeToChannel`: a non-owner applies
a `fromOwner` payload to its room state (keeping a `null` room untouched)
and stores the whiteboard snapshot when one is attached. -/
def handleSyncState (st : ClientState) (payload : SyncStatePayload) :
    ClientState :=
  if !st.isOwner && payload.fromOwner then
    let st1 := { st with room :=
        match st.room with
        | none => none
        | some prev => some { prev with code := payload.code,
                                        language := payload.language } }
    match payload.whiteboard with
    | some wb => { st1 with remoteWhiteboardSnapshot := some wb }
    | none => st1
  else
    st

/-- The `whiteboard_update` handler of `subscribeToChannel`: ignore own
echoes, otherwise replace the remote whiteboard snapshot. -/
def handleWhiteboardUpdate (st : ClientState)
    (payload : WhiteboardUpdatePayload) : ClientState :=
  if payload.updatedBy != st.userId then
    { st with remoteWhiteboardSnapshot := some payload.snapshot }
  else
    st

/-- The `SUBSCRIBED` callback of `channel.subscribe`: after tracking
presence (a different transport primitive, not a broadcast), a non-owner
sends exactly one `request_state` carrying its user id. -/
def onSubscribed (st : ClientState) : ClientState :=
  if !st.isOwner then
    { st with sent := st.sent ++ [Broadcast.requestState st.userId] }
  else
    st

/-- The viewer branch of the mount effect: a placeholder room, view-only
mode, and `isOwnerRef = false`. -/
def viewerInit (rid : String) (st : ClientState) : ClientState :=
  { st with isOwner := false,
            room := some { id := rid, code := "// Connecting to room...",
                           language := Language.javascript, isOwner := false },
            isViewOnly := true,
            channel := some rid }

/-- `createRoom`: a fresh owned room with the javascript starter code,
persisted to the cache. -/
def createRoom (newId : String) (now : Nat) (st : ClientState) : ClientState :=
  let newRoom : Room :=
    { id := newId, code := (LANGUAGE_CONFIG Language.javascript).defaultCode,
      language := Language.javascript, isOwner := true }
  { st with isOwner := true,
            cache := saveToStorage st.cache newRoom now,
            room := some newRoom,
            isViewOnly := false,
            channel := some newId }

/-- The mount effect of `useRealtimeRoom`: with a session id, resume as
owner when the cache holds the session flagged `isOwner`, otherwise join
as viewer; with no session id, create a new room.  Subscribing to the
channel is modelled by setting the `channel` field; the `SUBSCRIBED`
confirmation arrives later as the separate `onSubscribed` step. -/
def initRoom (roomId : Option String) (newId : String) (now : Nat)
    (st : ClientState) : ClientState :=
  match roomId with
  | some rid =>
    match getStoredRoom st.cache rid with
    | some storedRoom =>
      if storedRoom.isOwner then
        { st with isOwner := true,
                  room := some { id := storedRoom.id, code := storedRoom.code,
                                 language := storedRoom.language,
                                 isOwner := true },
                  isViewOnly := false,
                  channel := some rid }
      else
        viewerInit rid st
    | none => viewerInit rid st
  | none => createRoom newId now st

/-- `updateLanguage`: rejected for a missing room or a view-only peer;
otherwise the room gets the new language together with that language's
canned starter code in one update, the result is persisted, and (when a
channel exists) a single `code_update` carrying the combined pair is
sent. -/
def updateLanguage (st : ClientState) (language : Language) (now : Nat) :
    ClientState :=
  match st.room with
  | none => st
  | some r =>
    if st.isViewOnly then st
    else
      let updatedRoom : Room :=
        { r with language := language,
                 code := (LANGUAGE_CONFIG language).defaultCode }
      let st1 := { st with room := some updatedRoom,
                           cache := saveToStorage st.cache updatedRoom now }
      match st.channel with
      | some _ =>
          { st1 with sent := st1.sent ++
              [Broadcast.codeUpdate updatedRoom.code language st.userId none] }
      | none => st1

/-! ## The throttled code broadcaster (`broadcastCodeUpdate`)

`pendingCodeRef`, `lastSyncRef` and `syncTimerRef` become fields of an
explicit `ThrottleState`; `Date.now()` becomes an explicit `now`
parameter.  The `setTimeout` callback captures the `language` argument of
the call that scheduled it, so the timer field stores the absolute fire
time together with that captured language.  `window.setTimeout` with delay
`SYNC_INTERVAL - (now - lastSync)` schedules the fire at
`now + (SYNC_INTERVAL - (now - lastSync))`. -/

/-- The sync interval of the realtime hook (50ms). -/
def SYNC_INTERVAL : Nat := 50

/-- One `code_update` send of the throttled broadcaster: the payload pair
and the send timestamp. -/
structure CodeMsg where
  code : String
  language : Language
  time : Nat
deriving DecidableEq, Repr

/-- The mutable cells used by `broadcastCodeUpdate`, plus the log of sends
performed on the channel. -/
structure ThrottleState where
  chan : Bool
  pending : Option String
  lastSync : Nat
  timer : Option (Nat × Language)
  sent : List CodeMsg
deriving DecidableEq, Repr

/-- `broadcastCodeUpdate(code, language)` at time `now`: silently dropped
without a channel; otherwise the payload becomes pending, and either it is
sent immediately (window elapsed, pending cleared, send time recorded) or
a deferred send is (re)scheduled for the remaining window time. -/
def broadcastCodeUpdate (st : ThrottleState) (code : String)
    (language : Language) (now : Nat) : ThrottleState :=
  if !st.chan then st
  else
    let st1 := { st with pending := some code }
    if SYNC_INTERVAL ≤ now - st1.lastSync then
      { st1 with lastSync := now,
                 sent := st1.sent ++ [{ code := code, language := language,
                                        time := now }],
                 pending := none }
    else
      { st1 with
          timer := some (now + (SYNC_INTERVAL - (now - st1.lastSync)), language) }

/-- The `setTimeout` callback, firing at time `t` with captured language
`lang`: when a pending payload and the channel still exist it is sent with
a fresh timestamp and the pending slot cleared; in every case the timer is
spent. -/
def fireDeferred (st : ThrottleState) (t : Nat) (lang : Language) :
    ThrottleState :=
  match st.pending with
  | some code =>
      if st.chan then
        { st with lastSync := t,
                  sent := st.sent ++ [{ code := code, language := lang,
                                        time := t }],
                  pending := none,
                  timer := none }
      else
        { st with timer := none }
  | none => { st with timer := none }

/-- Deliver a scheduled timer that is due by time `t` (the event loop runs
the scheduled callback before any later edit). -/
def fireIfDue (st : ThrottleState) (t : Nat) : ThrottleState :=
  match st.timer with
  | some ft => if ft.1 ≤ t then fireDeferred st ft.1 ft.2 else st
  | none => st

/-- One local edit at time `t`: a timer already due by `t` fires first,
then `broadcastCodeUpdate` runs for the edit. -/
def stepEdit (st : ThrottleState) (code : String) (language : Language)
    (t : Nat) : ThrottleState :=
  broadcastCodeUpdate (fireIfDue st t) code language t

/-- An edit of the trace: payload pair plus the time it is fired. -/
structure EditEv where
  code : String
  language : Language
  time : Nat
deriving DecidableEq, Repr

/-- Run a sequence of local edits through the throttled broadcaster. -/
def runEdits (st : ThrottleState) (es : List EditEv) : ThrottleState :=
  es.foldl (fun s e => stepEdit s e.code e.language e.time) st

/-- After activity ends, let a still-scheduled deferred send fire at its
scheduled time. -/
def flushTimer (st : ThrottleState) : ThrottleState :=
  match st.timer with
  | some ft => fireDeferred st ft.1 ft.2
  | none => st

/-- The broadcaster state at mount: channel connected, nothing pending,
`lastSyncRef = 0`, no timer, nothing sent. -/
def throttleInit : ThrottleState :=
  { chan := true, pending := none, lastSync := 0, timer := none, sent := [] }

/-- Edit times are nondecreasing starting from `t`. -/
def timesMono (t : Nat) : List EditEv → Bool
  | [] => true
  | e :: es => decide (t ≤ e.time) && timesMono e.time es

/-! ## The plain rate-limited whiteboard broadcaster (`broadcastWhiteboard`)

Unlike the code broadcaster, `broadcastWhiteboard` (and `broadcastSnapshot`
of `useWhiteboardSync`) keeps no pending payload and schedules no deferred
send: a call inside the 100ms window is dropped outright. -/

/-- The mutable cells used by `broadcastWhiteboard`, plus the log of
snapshot sends. -/
structure WhiteboardBroadcastState where
  chan : Bool
  lastWhiteboardSync : Nat
  whiteboardSnapshot : Option WhiteboardSnapshot
  sent : List (WhiteboardSnapshot × Nat)
deriving DecidableEq, Repr

/-- `broadcastWhiteboard(snapshot)` at time `now`: dropped without a
channel or inside the 100ms window; otherwise the snapshot ref and the
sync stamp are updated and the snapshot is sent. -/
def broadcastWhiteboard (st : WhiteboardBroadcastState)
    (snapshot : WhiteboardSnapshot) (now : Nat) : WhiteboardBroadcastState :=
  if !st.chan then st
  else if now - st.lastWhiteboardSync < 100 then st
  else
    { st with lastWhiteboardSync := now,
              whiteboardSnapshot := some snapshot,
              sent := st.sent ++ [(snapshot, now)] }

/-! ## The remote-apply effect of `WhiteboardInner`

`lastSnapshotRef` holds the serialization of the last snapshot applied (or
broadcast); the remote-apply effect skips a remote snapshot whose
serialization equals it, and otherwise records the serialization and runs
the diff-based apply. -/

/-- The serialization used for the `lastSnapshotRef` comparison
(`JSON.stringify` of the snapshot); only its equality test matters. -/
def stringifyShapes (shapes : List Shape) : String :=
  String.intercalate ","
    (shapes.map (fun s => "\x7b" ++ s.id ++ "|" ++ s.props ++ "\x7d"))

/-- The editor-side state seen by the remote-apply effect: the current
page shapes and `lastSnapshotRef`. -/
structure EditorState where
  shapes : List Shape
  lastSnapshot : String
deriving DecidableEq, Repr

/-- The remote-apply effect of `WhiteboardInner`: nothing to do without a
remote snapshot; a snapshot whose serialization equals `lastSnapshotRef`
is skipped; otherwise the serialization is recorded and the diff-based
apply runs. -/
def remoteApplyEffect (st : EditorState) (remote : Option WhiteboardSnapshot) :
    EditorState :=
  match remote with
  | none => st
  | some snap =>
    if stringifyShapes snap.shapes == st.lastSnapshot then st
    else
      { shapes := applySnapshotToEditor st.shapes snap.shapes,
        lastSnapshot := stringifyShapes snap.shapes }

/-! ## Invariants and trace notions used by the theorems -/

/-- Successive sends of a log are at least one sync interval apart. -/
def Spaced (l : List CodeMsg) : Prop :=
  l.Chain' (fun a b => a.time + SYNC_INTERVAL ≤ b.time)

/-- Invariant of the throttled broadcaster at (current time) `t`:
the channel is connected, the send log is spaced and below `lastSync`,
`lastSync` is in the past, a scheduled timer fires exactly one interval
after `lastSync`, and a pending payload always has a scheduled timer. -/
structure ThrottleInv (st : ThrottleState) (t : Nat) : Prop where
  chanEq : st.chan = true
  spaced : Spaced st.sent
  sentLe : ∀ m ∈ st.sent, m.time ≤ st.lastSync
  lastLe : st.lastSync ≤ t
  timerEq : ∀ ft lg, st.timer = some (ft, lg) → ft = st.lastSync + SYNC_INTERVAL
  pendTimer : st.pending.isSome → st.timer.isSome

/-- The latest payload either sits in the pending slot with a scheduled
deferred send carrying its language, or it was the last send performed. -/
def LastWins (st : ThrottleState) (code : String) (lang : Language) : Prop :=
  (st.pending = some code ∧ ∃ ft, st.timer = some (ft, lang)) ∨
  (st.pending = none ∧ ∃ t, st.sent.getLast? = some ⟨code, lang, t⟩)

/-- The time after the last edit of a trace (the start time for an empty
trace). -/
def endTime (t : Nat) : List EditEv → Nat
  | [] => t
  | e :: es => endTime e.time es

end CollabCanvas

namespace CollabCanvas

/-! ## Lemmas about the shape-diff reconciler -/

theorem mapGet_eq_none {l : List Shape} {i : String} :
    mapGet l i = none ↔ ∀ s ∈ l, s.id ≠ i := by
  simp [mapGet, List.find?_eq_none, List.mem_reverse]

theorem mapGet_some {l : List Shape} {i : String} {u : Shape}
    (h : mapGet l i = some u) : u ∈ l ∧ u.id = i := by
  refine ⟨?_, ?_⟩
  · exact List.mem_reverse.mp (List.mem_of_find?_eq_some h)
  · simpa using List.find?_some h

theorem mapGet_isSome_of_mem {l : List Shape} {s : Shape} (h : s ∈ l) :
    (mapGet l s.id).isSome := by
  rw [mapGet, List.find?_isSome]
  exact ⟨s, List.mem_reverse.mpr h, by simp⟩

theorem shape_id_inj {l : List Shape} (h : (l.map Shape.id).Nodup)
    {a b : Shape} (ha : a ∈ l) (hb : b ∈ l) (hab : a.id = b.id) : a = b :=
  List.inj_on_of_nodup_map h ha hb hab

theorem mapGet_of_nodup_mem {l : List Shape} (h : (l.map Shape.id).Nodup)
    {m : Shape} (hm : m ∈ l) : mapGet l m.id = some m := by
  obtain ⟨u, hu⟩ := Option.isSome_iff_exists.mp (mapGet_isSome_of_mem hm)
  obtain ⟨humem, huid⟩ := mapGet_some hu
  rwa [shape_id_inj h humem hm huid] at hu

theorem mem_computeToDelete {c n : List Shape} {s : Shape} :
    s ∈ computeToDelete c n ↔ s ∈ c ∧ ∀ m ∈ n, m.id ≠ s.id := by
  simp [computeToDelete, List.mem_filter, hasId, List.any_eq_true]

theorem mem_computeToCreate {c n : List Shape} {s : Shape} :
    s ∈ computeToCreate c n ↔ s ∈ n ∧ ∀ m ∈ c, m.id ≠ s.id := by
  simp [computeToCreate, List.mem_filter, Option.isNone_iff_eq_none,
    mapGet_eq_none]

theorem mem_computeToUpdate {c n : List Shape} {s : Shape} :
    s ∈ computeToUpdate c n ↔
      s ∈ n ∧ ∃ u, mapGet c s.id = some u ∧ u ≠ s := by
  simp only [computeToUpdate, List.mem_filter]
  cases hm : mapGet c s.id with
  | none => simp [hm]
  | some u => simp [hm, bne_iff_ne]

/-! ## Claim C1: self-echo exclusion -/

/-- C1: an inbound `code_update` or `whiteboard_update` whose `updatedBy`
field equals the receiving peer's own peer id leaves the peer's state —
in particular the room state and the remote-whiteboard snapshot —
completely unchanged: a peer never applies its own broadcast back to
itself. -/
theorem self_echo_exclusion (st : ClientState) (pc : CodeUpdatePayload)
    (pw : WhiteboardUpdatePayload) (hc : pc.updatedBy = st.userId)
    (hw : pw.updatedBy = st.userId) :
    handleCodeUpdate st pc = st ∧ handleWhiteboardUpdate st pw = st := by
  constructor
  · simp [handleCodeUpdate, hc]
  · simp [handleWhiteboardUpdate, hw]

/-- Witness for C1 at a concrete peer state and self-originated payloads. -/
theorem self_echo_exclusion_witness :
    ("u1" : String) = "u1" ∧
    (handleCodeUpdate ⟨"u1", some ⟨"r1", "x", Language.javascript, true⟩,
        false, true, [], none, none, some "r1", []⟩
        ⟨"y", Language.python, "u1", some 5⟩ =
      ⟨"u1", some ⟨"r1", "x", Language.javascript, true⟩,
        false, true, [], none, none, some "r1", []⟩ ∧
    handleWhiteboardUpdate ⟨"u1", some ⟨"r1", "x", Language.javascript, true⟩,
        false, true, [], none, none, some "r1", []⟩
        ⟨⟨[⟨"s1", "p"⟩]⟩, "u1", 7⟩ =
      ⟨"u1", some ⟨"r1", "x", Language.javascript, true⟩,
        false, true, [], none, none, some "r1", []⟩) :=
  ⟨rfl, self_echo_exclusion _ _ _ rfl rfl⟩

/-! ## Claim C2: shape diff correctness -/

/-- C2: the shape diff computes `toDelete` as exactly the local shapes
whose id is absent from the incoming snapshot, `toCreate` as exactly the
incoming shapes whose id is absent locally, and `toUpdate` as exactly the
incoming shapes present in both whose value differs from the local one;
in particular for local `\x7bA, B, C\x7d` and remote `\x7bB, C', D\x7d`
with `B` unchanged and `C` changed, `toDelete = [A]`, `toCreate = [D]`,
`toUpdate = [C']`, and `B` appears in no mutation list. -/
theorem shape_diff_correct (current next : List Shape)
    (hc : (current.map Shape.id).Nodup) :
    (∀ s, s ∈ computeToDelete current next ↔
        s ∈ current ∧ ∀ m ∈ next, m.id ≠ s.id) ∧
    (∀ s, s ∈ computeToCreate current next ↔
        s ∈ next ∧ ∀ m ∈ current, m.id ≠ s.id) ∧
    (∀ s, s ∈ computeToUpdate current next ↔
        s ∈ next ∧ ∃ m ∈ current, m.id = s.id ∧ m ≠ s) ∧
    (computeToDelete [⟨"A", "a"⟩, ⟨"B", "b"⟩, ⟨"C", "c"⟩]
        [⟨"B", "b"⟩, ⟨"C", "c2"⟩, ⟨"D", "d"⟩] = [⟨"A", "a"⟩] ∧
      computeToCreate [⟨"A", "a"⟩, ⟨"B", "b"⟩, ⟨"C", "c"⟩]
        [⟨"B", "b"⟩, ⟨"C", "c2"⟩, ⟨"D", "d"⟩] = [⟨"D", "d"⟩] ∧
      computeToUpdate [⟨"A", "a"⟩, ⟨"B", "b"⟩, ⟨"C", "c"⟩]
        [⟨"B", "b"⟩, ⟨"C", "c2"⟩, ⟨"D", "d"⟩] = [⟨"C", "c2"⟩]) := by
  refine ⟨fun s => mem_computeToDelete, fun s => mem_computeToCreate,
    fun s => ?_, by decide⟩
  rw [mem_computeToUpdate]
  constructor
  · rintro ⟨hsn, u, hu, hne⟩
    obtain ⟨hum, huid⟩ := mapGet_some hu
    exact ⟨hsn, u, hum, huid, hne⟩
  · rintro ⟨hsn, m, hmc, hmid, hne⟩
    refine ⟨hsn, m, ?_, hne⟩
    rw [← hmid]
    exact mapGet_of_nodup_mem hc hmc

/-- Witness for C2 at the concrete local/remote shape collections of the
claim. -/
theorem shape_diff_correct_witness :
    (([⟨"A", "a"⟩, ⟨"B", "b"⟩, ⟨"C", "c"⟩] : List Shape).map Shape.id).Nodup ∧
    ((∀ s, s ∈ computeToDelete [⟨"A", "a"⟩, ⟨"B", "b"⟩, ⟨"C", "c"⟩]
          [⟨"B", "b"⟩, ⟨"C", "c2"⟩, ⟨"D", "d"⟩] ↔
        s ∈ ([⟨"A", "a"⟩, ⟨"B", "b"⟩, ⟨"C", "c"⟩] : List Shape) ∧
          ∀ m ∈ ([⟨"B", "b"⟩, ⟨"C", "c2"⟩, ⟨"D", "d"⟩] : List Shape),
            m.id ≠ s.id) ∧
      (∀ s, s ∈ computeToCreate [⟨"A", "a"⟩, ⟨"B", "b"⟩, ⟨"C", "c"⟩]
          [⟨"B", "b"⟩, ⟨"C", "c2"⟩, ⟨"D", "d"⟩] ↔
        s ∈ ([⟨"B", "b"⟩, ⟨"C", "c2"⟩, ⟨"D", "d"⟩] : List Shape) ∧
          ∀ m ∈ ([⟨"A", "a"⟩, ⟨"B", "b"⟩, ⟨"C", "c"⟩] : List Shape),
            m.id ≠ s.id) ∧
      (∀ s, s ∈ computeToUpdate [⟨"A", "a"⟩, ⟨"B", "b"⟩, ⟨"C", "c"⟩]
          [⟨"B", "b"⟩, ⟨"C", "c2"⟩, ⟨"D", "d"⟩] ↔
        s ∈ ([⟨"B", "b"⟩, ⟨"C", "c2"⟩, ⟨"D", "d"⟩] : List Shape) ∧
          ∃ m ∈ ([⟨"A", "a"⟩, ⟨"B", "b"⟩, ⟨"C", "c"⟩] : List Shape),
            m.id = s.id ∧ m ≠ s) ∧
      (computeToDelete [⟨"A", "a"⟩, ⟨"B", "b"⟩, ⟨"C", "c"⟩]
          [⟨"B", "b"⟩, ⟨"C", "c2"⟩, ⟨"D", "d"⟩] = [⟨"A", "a"⟩] ∧
        computeToCreate [⟨"A", "a"⟩, ⟨"B", "b"⟩, ⟨"C", "c"⟩]
          [⟨"B", "b"⟩, ⟨"C", "c2"⟩, ⟨"D", "d"⟩] = [⟨"D", "d"⟩] ∧
        computeToUpdate [⟨"A", "a"⟩, ⟨"B", "b"⟩, ⟨"C", "c"⟩]
          [⟨"B", "b"⟩, ⟨"C", "c2"⟩, ⟨"D", "d"⟩] = [⟨"C", "c2"⟩])) :=
  ⟨by decide, shape_diff_correct _ _ (by decide)⟩

/-! ## Claim C10: null-room guard -/

/-- C10: a `code_update` or `sync_state` arriving while the local room
state is still `null` is a safe no-op on the room: the handler is a total
function and the room stays `null`, so no partially-formed room can
arise. -/
theorem null_room_guard (st : ClientState) (pc : CodeUpdatePayload)
    (ps : SyncStatePayload) (h : st.room = none) :
    (handleCodeUpdate st pc).room = none ∧
    (handleSyncState st ps).room = none := by
  constructor
  · unfold handleCodeUpdate
    split
    · simp [h]
    · exact h
  · unfold handleSyncState
    split
    · cases hw : ps.whiteboard <;> simp [h, hw]
    · exact h

/-- Witness for C10 at a concrete uninitialized peer state. -/
theorem null_room_guard_witness :
    (ClientState.room ⟨"u2", none, true, false, [], none, none, some "r9", []⟩
        = none) ∧
    ((handleCodeUpdate ⟨"u2", none, true, false, [], none, none, some "r9", []⟩
        ⟨"y", Language.cpp, "owner", some 3⟩).room = none ∧
      (handleSyncState ⟨"u2", none, true, false, [], none, none, some "r9", []⟩
        ⟨"y", Language.cpp, some ⟨[⟨"s", "p"⟩]⟩, true⟩).room = none) :=
  ⟨rfl, null_room_guard _ _ _ rfl⟩

/-! ## Claim C3: viewer join handshake -/

/-- C3: a peer joining a session whose cache entry is absent or not
flagged as owner initializes its room to the placeholder code in view-only
mode, sends exactly one `request_state` once its subscription is
confirmed, applies an owner-flagged `sync_state` by taking the payload's
code and language, and never writes anything to the local session cache
along this whole path. -/
theorem viewer_join_handshake (st : ClientState) (rid newId : String)
    (now : Nat) (p : SyncStatePayload)
    (hcache : ∀ sr, getStoredRoom st.cache rid = some sr → sr.isOwner = false)
    (hsent : st.sent = [])
    (hfrom : p.fromOwner = true) :
    (initRoom (some rid) newId now st).room =
      some ⟨rid, "// Connecting to room...", Language.javascript, false⟩ ∧
    (initRoom (some rid) newId now st).isViewOnly = true ∧
    (onSubscribed (initRoom (some rid) newId now st)).sent =
      [Broadcast.requestState st.userId] ∧
    (handleSyncState (onSubscribed (initRoom (some rid) newId now st)) p).room =
      some ⟨rid, p.code, p.language, false⟩ ∧
    (handleSyncState (onSubscribed (initRoom (some rid) newId now st)) p).cache =
      st.cache := by
  have h1 : initRoom (some rid) newId now st = viewerInit rid st := by
    unfold initRoom
    cases hsr : getStoredRoom st.cache rid with
    | none => simp [hsr]
    | some sr => simp [hsr, hcache sr hsr]
  rw [h1]
  refine ⟨rfl, rfl, ?_, ?_, ?_⟩
  · simp [onSubscribed, viewerInit, hsent]
  · cases hw : p.whiteboard <;>
      simp [handleSyncState, onSubscribed, viewerInit, hfrom, hw]
  · cases hw : p.whiteboard <;>
      simp [handleSyncState, onSubscribed, viewerInit, hfrom, hw]

/-- Witness for C3: a fresh viewer with an empty cache joins "abc123" and
receives the owner's python state. -/
theorem viewer_join_handshake_witness :
    (ClientState.sent ⟨"v1", none, false, false, [], none, none, none, []⟩
        = []) ∧
    ((initRoom (some "abc123") "n1" 4
        ⟨"v1", none, false, false, [], none, none, none, []⟩).room =
      some ⟨"abc123", "// Connecting to room...", Language.javascript,
        false⟩ ∧
    (initRoom (some "abc123") "n1" 4
        ⟨"v1", none, false, false, [], none, none, none, []⟩).isViewOnly =
      true ∧
    (onSubscribed (initRoom (some "abc123") "n1" 4
        ⟨"v1", none, false, false, [], none, none, none, []⟩)).sent =
      [Broadcast.requestState "v1"] ∧
    (handleSyncState (onSubscribed (initRoom (some "abc123") "n1" 4
        ⟨"v1", none, false, false, [], none, none, none, []⟩))
        ⟨"X", Language.python, none, true⟩).room =
      some ⟨"abc123", "X", Language.python, false⟩ ∧
    (handleSyncState (onSubscribed (initRoom (some "abc123") "n1" 4
        ⟨"v1", none, false, false, [], none, none, none, []⟩))
        ⟨"X", Language.python, none, true⟩).cache = []) :=
  ⟨rfl, viewer_join_handshake _ "abc123" "n1" 4 _
    (fun sr hsr => by simp [getStoredRoom] at hsr) rfl rfl⟩

/-! ## Claim C9: owner reload continuity -/

/-- C9: an owner remounting with a session id cached as owned-by-self
resumes directly as owner with the cached code and language, and its
subscription confirmation emits no `request_state`. -/
theorem owner_reload_continuity (st : ClientState) (rid newId : String)
    (now : Nat) (sr : StoredRoom)
    (hsr : getStoredRoom st.cache rid = some sr)
    (hown : sr.isOwner = true)
    (hsent : st.sent = []) :
    (initRoom (some rid) newId now st).room =
      some ⟨sr.id, sr.code, sr.language, true⟩ ∧
    (initRoom (some rid) newId now st).isOwner = true ∧
    (initRoom (some rid) newId now st).isViewOnly = false ∧
    (onSubscribed (initRoom (some rid) newId now st)).sent = [] := by
  have h1 : initRoom (some rid) newId now st =
      { st with isOwner := true,
                room := some ⟨sr.id, sr.code, sr.language, true⟩,
                isViewOnly := false, channel := some rid } := by
    unfold initRoom
    simp [hsr, hown]
  rw [h1]
  exact ⟨rfl, rfl, rfl, by simp [onSubscribed, hsent]⟩

/-- Witness for C9: the owner of "xyz789" reloads with its cached room
holding code "Y". -/
theorem owner_reload_continuity_witness :
    (getStoredRoom [("xyz789", ⟨"xyz789", "Y", Language.javascript, 2, true⟩)]
        "xyz789" = some ⟨"xyz789", "Y", Language.javascript, 2, true⟩) ∧
    ((initRoom (some "xyz789") "n2" 9
        ⟨"o9", none, false, false,
          [("xyz789", ⟨"xyz789", "Y", Language.javascript, 2, true⟩)],
          none, none, none, []⟩).room =
      some ⟨"xyz789", "Y", Language.javascript, true⟩ ∧
    (initRoom (some "xyz789") "n2" 9
        ⟨"o9", none, false, false,
          [("xyz789", ⟨"xyz789", "Y", Language.javascript, 2, true⟩)],
          none, none, none, []⟩).isOwner = true ∧
    (initRoom (some "xyz789") "n2" 9
        ⟨"o9", none, false, false,
          [("xyz789", ⟨"xyz789", "Y", Language.javascript, 2, true⟩)],
          none, none, none, []⟩).isViewOnly = false ∧
    (onSubscribed (initRoom (some "xyz789") "n2" 9
        ⟨"o9", none, false, false,
          [("xyz789", ⟨"xyz789", "Y", Language.javascript, 2, true⟩)],
          none, none, none, []⟩)).sent = []) :=
  ⟨rfl, owner_reload_continuity
    ⟨"o9", none, false, false,
      [("xyz789", ⟨"xyz789", "Y", Language.javascript, 2, true⟩)],
      none, none, none, []⟩ "xyz789" "n2" 9
    ⟨"xyz789", "Y", Language.javascript, 2, true⟩ rfl rfl rfl⟩

/-! ## Claim C5: language switch atomicity -/

/-- C5: a language switch by a non-view-only peer with a live channel
produces, in one atomic state transition, a room whose code is the new
language's canned starter text together with the new language, and appends
exactly one broadcast carrying that same combined pair — there is no
intermediate state or message with a mismatched code/language pair. -/
theorem language_switch_atomic (st : ClientState) (r : Room) (l : Language)
    (now : Nat) (ch : String)
    (hroom : st.room = some r)
    (hview : st.isViewOnly = false)
    (hchan : st.channel = some ch) :
    (updateLanguage st l now).room =
      some { r with language := l,
                    code := (LANGUAGE_CONFIG l).defaultCode } ∧
    (updateLanguage st l now).sent = st.sent ++
      [Broadcast.codeUpdate (LANGUAGE_CONFIG l).defaultCode l st.userId
        none] := by
  unfold updateLanguage
  simp [hroom, hview, hchan]

/-- Witness for C5: a javascript owner switches to python; the update and
the broadcast both carry python's starter code with language python. -/
theorem language_switch_atomic_witness :
    (ClientState.isViewOnly ⟨"o1", some ⟨"r1", "x", Language.javascript, true⟩,
        false, true, [], none, none, some "r1", []⟩ = false) ∧
    ((updateLanguage ⟨"o1", some ⟨"r1", "x", Language.javascript, true⟩,
        false, true, [], none, none, some "r1", []⟩ Language.python 11).room =
      some ⟨"r1", (LANGUAGE_CONFIG Language.python).defaultCode,
        Language.python, true⟩ ∧
    (updateLanguage ⟨"o1", some ⟨"r1", "x", Language.javascript, true⟩,
        false, true, [], none, none, some "r1", []⟩ Language.python 11).sent =
      [Broadcast.codeUpdate (LANGUAGE_CONFIG Language.python).defaultCode
        Language.python "o1" none]) :=
  ⟨rfl, language_switch_atomic
    ⟨"o1", some ⟨"r1", "x", Language.javascript, true⟩,
      false, true, [], none, none, some "r1", []⟩
    ⟨"r1", "x", Language.javascript, true⟩ Language.python 11 "r1"
    rfl rfl rfl⟩

/-! ## Claim C8: owner reply to request_state -/

/-- C8 counterexample: a peer whose `ownerFlag` is true but whose session
is missing from the local cache sends nothing on `request_state` — the
claim that an owner always replies fails at this concrete state. -/
theorem owner_reply_counterexample :
    (ClientState.isOwner ⟨"o1", some ⟨"r1", "x", Language.javascript, true⟩,
        false, true, [], none, none, some "r1", []⟩ = true) ∧
    (handleRequestState ⟨"o1", some ⟨"r1", "x", Language.javascript, true⟩,
        false, true, [], none, none, some "r1", []⟩ "r1").sent = [] :=
  ⟨rfl, rfl⟩

/-- C8 (amended): an owner whose session id is present in the local cache
replies to `request_state` with exactly one `sync_state` carrying the
cached code and language, the latest whiteboard snapshot ref and
`fromOwner: true`; an owner with a cache miss sends nothing; a non-owner
never replies. -/
theorem owner_reply_amended (st : ClientState) (id : String) :
    (∀ cr, st.isOwner = true → getStoredRoom st.cache id = some cr →
      handleRequestState st id = { st with sent := st.sent ++
        [Broadcast.syncState cr.code cr.language st.whiteboardSnapshot
          true] }) ∧
    (st.isOwner = true → getStoredRoom st.cache id = none →
      handleRequestState st id = st) ∧
    (st.isOwner = false → handleRequestState st id = st) := by
  refine ⟨?_, ?_, ?_⟩ <;> intros <;> simp [handleRequestState, *]

/-- Witness for C8 at a concrete cached owner and a concrete non-owner. -/
theorem owner_reply_amended_witness :
    handleRequestState ⟨"o1", some ⟨"r1", "x", Language.javascript, true⟩,
        false, true, [("r1", ⟨"r1", "x", Language.javascript, 0, true⟩)],
        none, some ⟨[⟨"s", "p"⟩]⟩, some "r1", []⟩ "r1" =
      ⟨"o1", some ⟨"r1", "x", Language.javascript, true⟩,
        false, true, [("r1", ⟨"r1", "x", Language.javascript, 0, true⟩)],
        none, some ⟨[⟨"s", "p"⟩]⟩, some "r1",
        [Broadcast.syncState "x" Language.javascript (some ⟨[⟨"s", "p"⟩]⟩)
          true]⟩ ∧
    handleRequestState ⟨"v1", none, true, false, [], none, none, some "r1",
        []⟩ "r1" =
      ⟨"v1", none, true, false, [], none, none, some "r1", []⟩ :=
  ⟨(owner_reply_amended _ "r1").1 ⟨"r1", "x", Language.javascript, 0, true⟩
      rfl rfl,
    (owner_reply_amended _ "r1").2.2 rfl⟩

/-! ## Lemmas towards claim C4: idempotence of snapshot application -/

theorem patch_id (upds : List Shape) (s : Shape) :
    (match mapGet upds s.id with | some u => u | none => s).id = s.id := by
  cases hm : mapGet upds s.id with
  | none => rfl
  | some u => exact (mapGet_some hm).2

theorem updateShapes_ids (l upds : List Shape) :
    (updateShapes l upds).map Shape.id = l.map Shape.id := by
  unfold updateShapes
  rw [List.map_map]
  exact List.map_congr_left (fun s _ => patch_id upds s)

theorem deleteShapes_nil (l : List Shape) : deleteShapes l [] = l := by
  simp [deleteShapes, hasId]

theorem updateShapes_nil (l : List Shape) : updateShapes l [] = l := by
  simp [updateShapes, mapGet]

/-- Every shape of the applied result carries an id of the incoming
snapshot. -/
theorem applySnapshot_ids_sub {c n : List Shape} {s : Shape}
    (hs : s ∈ applySnapshotToEditor c n) : ∃ m ∈ n, m.id = s.id := by
  unfold applySnapshotToEditor updateShapes at hs
  obtain ⟨x, hx, hpx⟩ := List.mem_map.mp hs
  cases hmg : mapGet (computeToUpdate c n) x.id with
  | some u =>
    rw [hmg] at hpx
    have hus : u = s := hpx
    obtain ⟨hu, -⟩ := mapGet_some hmg
    obtain ⟨hun, -⟩ := mem_computeToUpdate.mp hu
    exact ⟨u, hun, by rw [hus]⟩
  | none =>
    rw [hmg] at hpx
    have hxs : x = s := hpx
    subst hxs
    rcases List.mem_append.mp hx with hdel | hcre
    · rw [deleteShapes, List.mem_filter] at hdel
      obtain ⟨hxc, hxd⟩ := hdel
      by_contra hno
      push_neg at hno
      have hxdel : x ∈ computeToDelete c n :=
        mem_computeToDelete.mpr ⟨hxc, fun m hm => hno m hm⟩
      rw [Bool.not_eq_true', hasId] at hxd
      have : (computeToDelete c n).any (fun d => d.id == x.id) = true :=
        List.any_eq_true.mpr ⟨x, hxdel, by simp⟩
      rw [this] at hxd
      cases hxd
    · obtain ⟨hxn, -⟩ := mem_computeToCreate.mp hcre
      exact ⟨x, hxn, rfl⟩

/-- The ids of the applied result repeat no id when neither input does. -/
theorem applySnapshot_ids_nodup {c n : List Shape}
    (hc : (c.map Shape.id).Nodup) (hn : (n.map Shape.id).Nodup) :
    ((applySnapshotToEditor c n).map Shape.id).Nodup := by
  unfold applySnapshotToEditor
  rw [updateShapes_ids, createShapes, List.map_append]
  have hdn : ((deleteShapes c (computeToDelete c n)).map Shape.id).Nodup :=
    hc.sublist ((List.filter_sublist c).map Shape.id)
  have hcn : ((computeToCreate c n).map Shape.id).Nodup :=
    hn.sublist ((List.filter_sublist n).map Shape.id)
  refine hdn.append hcn ?_
  intro i hid hic
  obtain ⟨x, hx, hxi⟩ := List.mem_map.mp hid
  obtain ⟨y, hy, hyi⟩ := List.mem_map.mp hic
  rw [deleteShapes, List.mem_filter] at hx
  obtain ⟨-, hyall⟩ := mem_computeToCreate.mp hy
  exact hyall x hx.1 (by rw [hxi, hyi])

/-- Every incoming shape occurs verbatim in the applied result. -/
theorem mem_applySnapshot_of_mem_next {c n : List Shape} {m : Shape}
    (hn : (n.map Shape.id).Nodup) (hm : m ∈ n) :
    m ∈ applySnapshotToEditor c n := by
  unfold applySnapshotToEditor
  cases hmg : mapGet c m.id with
  | none =>
    have hmc : m ∈ computeToCreate c n :=
      mem_computeToCreate.mpr ⟨hm, mapGet_eq_none.mp hmg⟩
    have hbase : m ∈ createShapes (deleteShapes c (computeToDelete c n))
        (computeToCreate c n) := List.mem_append_right _ hmc
    have hpatch : mapGet (computeToUpdate c n) m.id = none := by
      rw [mapGet_eq_none]
      intro u hu huid
      obtain ⟨-, v, hv, -⟩ := mem_computeToUpdate.mp hu
      rw [huid, hmg] at hv
      cases hv
    have hfx : (fun s => match mapGet (computeToUpdate c n) s.id with
        | some u => u | none => s) m = m := by
      show (match mapGet (computeToUpdate c n) m.id with
        | some u => u | none => m) = m
      rw [hpatch]
    rw [updateShapes]
    exact hfx ▸ List.mem_map_of_mem _ hbase
  | some cur =>
    obtain ⟨hcur_mem, hcur_id⟩ := mapGet_some hmg
    have hdel : cur ∈ deleteShapes c (computeToDelete c n) := by
      rw [deleteShapes, List.mem_filter]
      refine ⟨hcur_mem, ?_⟩
      rw [Bool.not_eq_true']
      rw [hasId, List.any_eq_false]
      intro d hd
      obtain ⟨-, hall⟩ := mem_computeToDelete.mp hd
      simp only [beq_iff_eq]
      intro hdc
      exact hall m hm (by rw [hdc, hcur_id])
    have hbase : cur ∈ createShapes (deleteShapes c (computeToDelete c n))
        (computeToCreate c n) := List.mem_append_left _ hdel
    by_cases hcm : cur = m
    · have hpatch : mapGet (computeToUpdate c n) cur.id = none := by
        rw [mapGet_eq_none]
        intro u hu huid
        obtain ⟨hun, v, hv, hvne⟩ := mem_computeToUpdate.mp hu
        have hum : u = m :=
          shape_id_inj hn hun hm (by rw [huid, hcur_id])
        rw [hum, hmg] at hv
        have hvc : cur = v := by injection hv
        rw [hum] at hvne
        exact hvne (by rw [← hvc]; exact hcm)
      rw [hcm] at hpatch hbase
      have hfx : (fun s => match mapGet (computeToUpdate c n) s.id with
          | some u => u | none => s) m = m := by
        show (match mapGet (computeToUpdate c n) m.id with
          | some u => u | none => m) = m
        rw [hpatch]
      rw [updateShapes]
      exact hfx ▸ List.mem_map_of_mem _ hbase
    · have hmup : m ∈ computeToUpdate c n :=
        mem_computeToUpdate.mpr ⟨hm, cur, hmg, hcm⟩
      have hupnodup : ((computeToUpdate c n).map Shape.id).Nodup :=
        hn.sublist ((List.filter_sublist n).map Shape.id)
      have hpatch : mapGet (computeToUpdate c n) cur.id = some m := by
        rw [hcur_id]
        exact mapGet_of_nodup_mem hupnodup hmup
      have hfx : (fun s => match mapGet (computeToUpdate c n) s.id with
          | some u => u | none => s) cur = m := by
        show (match mapGet (computeToUpdate c n) cur.id with
          | some u => u | none => cur) = m
        rw [hpatch]
      rw [updateShapes]
      exact hfx ▸ List.mem_map_of_mem _ hbase

theorem createShapes_nil (l : List Shape) : createShapes l [] = l := by
  simp [createShapes]

/-! ## Claim C4: idempotence of snapshot application -/

/-- C4: applying a remote whiteboard snapshot is idempotent: once a
snapshot has been applied, diffing the resulting page against the same
snapshot yields empty `toDelete`, `toCreate` and `toUpdate` lists, so a
second application performs zero shape mutations and leaves the editor
state unchanged; moreover the `lastSnapshotRef` guard of the remote-apply
effect makes re-delivery of the identical snapshot a no-op outright. -/
theorem snapshot_apply_idempotent (c n : List Shape)
    (hc : (c.map Shape.id).Nodup) (hn : (n.map Shape.id).Nodup) :
    computeToDelete (applySnapshotToEditor c n) n = [] ∧
    computeToCreate (applySnapshotToEditor c n) n = [] ∧
    computeToUpdate (applySnapshotToEditor c n) n = [] ∧
    applySnapshotToEditor (applySnapshotToEditor c n) n =
      applySnapshotToEditor c n ∧
    (∀ (st : EditorState) (snap : WhiteboardSnapshot),
      remoteApplyEffect (remoteApplyEffect st (some snap)) (some snap) =
        remoteApplyEffect st (some snap)) := by
  have h1 : computeToDelete (applySnapshotToEditor c n) n = [] := by
    rw [computeToDelete, List.filter_eq_nil_iff]
    intro s hs
    obtain ⟨m, hm, hmid⟩ := applySnapshot_ids_sub hs
    simp only [hasId, Bool.not_eq_true', Bool.not_eq_false, List.any_eq_true]
    exact ⟨m, hm, by simp [hmid]⟩
  have h2 : computeToCreate (applySnapshotToEditor c n) n = [] := by
    rw [computeToCreate, List.filter_eq_nil_iff]
    intro m hm
    have hsome := mapGet_of_nodup_mem (applySnapshot_ids_nodup hc hn)
      (mem_applySnapshot_of_mem_next hn hm)
    simp [hsome]
  have h3 : computeToUpdate (applySnapshotToEditor c n) n = [] := by
    rw [computeToUpdate, List.filter_eq_nil_iff]
    intro m hm
    have hsome := mapGet_of_nodup_mem (applySnapshot_ids_nodup hc hn)
      (mem_applySnapshot_of_mem_next hn hm)
    simp [hsome]
  refine ⟨h1, h2, h3, ?_, ?_⟩
  · show updateShapes
        (createShapes
          (deleteShapes (applySnapshotToEditor c n)
            (computeToDelete (applySnapshotToEditor c n) n))
          (computeToCreate (applySnapshotToEditor c n) n))
        (computeToUpdate (applySnapshotToEditor c n) n) =
      applySnapshotToEditor c n
    rw [h1, h2, h3, deleteShapes_nil, createShapes_nil, updateShapes_nil]
  · intro st snap
    simp only [remoteApplyEffect]
    by_cases h : stringifyShapes snap.shapes = st.lastSnapshot
    · simp [h]
    · simp [h]

/-- Witness for C4 at the concrete shape collections of the diff claim. -/
theorem snapshot_apply_idempotent_witness :
    (([⟨"A", "a"⟩, ⟨"B", "b"⟩, ⟨"C", "c"⟩] : List Shape).map Shape.id).Nodup ∧
    (computeToDelete
        (applySnapshotToEditor [⟨"A", "a"⟩, ⟨"B", "b"⟩, ⟨"C", "c"⟩]
          [⟨"B", "b"⟩, ⟨"C", "c2"⟩, ⟨"D", "d"⟩])
        [⟨"B", "b"⟩, ⟨"C", "c2"⟩, ⟨"D", "d"⟩] = [] ∧
      computeToCreate
        (applySnapshotToEditor [⟨"A", "a"⟩, ⟨"B", "b"⟩, ⟨"C", "c"⟩]
          [⟨"B", "b"⟩, ⟨"C", "c2"⟩, ⟨"D", "d"⟩])
        [⟨"B", "b"⟩, ⟨"C", "c2"⟩, ⟨"D", "d"⟩] = [] ∧
      computeToUpdate
        (applySnapshotToEditor [⟨"A", "a"⟩, ⟨"B", "b"⟩, ⟨"C", "c"⟩]
          [⟨"B", "b"⟩, ⟨"C", "c2"⟩, ⟨"D", "d"⟩])
        [⟨"B", "b"⟩, ⟨"C", "c2"⟩, ⟨"D", "d"⟩] = [] ∧
      applySnapshotToEditor
        (applySnapshotToEditor [⟨"A", "a"⟩, ⟨"B", "b"⟩, ⟨"C", "c"⟩]
          [⟨"B", "b"⟩, ⟨"C", "c2"⟩, ⟨"D", "d"⟩])
        [⟨"B", "b"⟩, ⟨"C", "c2"⟩, ⟨"D", "d"⟩] =
        applySnapshotToEditor [⟨"A", "a"⟩, ⟨"B", "b"⟩, ⟨"C", "c"⟩]
          [⟨"B", "b"⟩, ⟨"C", "c2"⟩, ⟨"D", "d"⟩] ∧
      (∀ (st : EditorState) (snap : WhiteboardSnapshot),
        remoteApplyEffect (remoteApplyEffect st (some snap)) (some snap) =
          remoteApplyEffect st (some snap))) :=
  ⟨by decide, snapshot_apply_idempotent
    [⟨"A", "a"⟩, ⟨"B", "b"⟩, ⟨"C", "c"⟩]
    [⟨"B", "b"⟩, ⟨"C", "c2"⟩, ⟨"D", "d"⟩] (by decide) (by decide)⟩


/-! ## Computation equations for the throttled code broadcaster -/

theorem fireDeferred_send {st : ThrottleState} {code : String}
    (hp : st.pending = some code) (hch : st.chan = true) (t : Nat)
    (lg : Language) :
    fireDeferred st t lg =
      { st with lastSync := t, sent := st.sent ++ [⟨code, lg, t⟩],
                pending := none, timer := none } := by
  unfold fireDeferred
  simp only [hp]
  rw [if_pos hch]

theorem fireDeferred_noSend {st : ThrottleState} (hp : st.pending = none)
    (t : Nat) (lg : Language) :
    fireDeferred st t lg = { st with timer := none } := by
  unfold fireDeferred
  simp only [hp]

theorem broadcastCodeUpdate_immediate {st : ThrottleState}
    (hch : st.chan = true) {now : Nat}
    (hw : SYNC_INTERVAL ≤ now - st.lastSync) (code : String)
    (lang : Language) :
    broadcastCodeUpdate st code lang now =
      { st with lastSync := now, sent := st.sent ++ [⟨code, lang, now⟩],
                pending := none } := by
  unfold broadcastCodeUpdate
  rw [if_neg (by simp [hch])]
  dsimp only
  rw [if_pos hw]

theorem broadcastCodeUpdate_deferred {st : ThrottleState}
    (hch : st.chan = true) {now : Nat}
    (hw : ¬ SYNC_INTERVAL ≤ now - st.lastSync) (code : String)
    (lang : Language) :
    broadcastCodeUpdate st code lang now =
      { st with pending := some code,
                timer := some (now + (SYNC_INTERVAL - (now - st.lastSync)),
                  lang) } := by
  unfold broadcastCodeUpdate
  rw [if_neg (by simp [hch])]
  dsimp only
  rw [if_neg hw]

theorem fireIfDue_none {st : ThrottleState} (ht : st.timer = none) (t : Nat) :
    fireIfDue st t = st := by
  unfold fireIfDue
  simp only [ht]

theorem fireIfDue_due {st : ThrottleState} {ftp : Nat × Language}
    (ht : st.timer = some ftp) {t : Nat} (hle : ftp.1 ≤ t) :
    fireIfDue st t = fireDeferred st ftp.1 ftp.2 := by
  unfold fireIfDue
  simp only [ht]
  rw [if_pos hle]

theorem fireIfDue_notDue {st : ThrottleState} {ftp : Nat × Language}
    (ht : st.timer = some ftp) {t : Nat} (hle : ¬ ftp.1 ≤ t) :
    fireIfDue st t = st := by
  unfold fireIfDue
  simp only [ht]
  rw [if_neg hle]

theorem flushTimer_none {st : ThrottleState} (ht : st.timer = none) :
    flushTimer st = st := by
  unfold flushTimer
  simp only [ht]

theorem flushTimer_fire {st : ThrottleState} {ftp : Nat × Language}
    (ht : st.timer = some ftp) :
    flushTimer st = fireDeferred st ftp.1 ftp.2 := by
  unfold flushTimer
  simp only [ht]

theorem runEdits_cons (st : ThrottleState) (e : EditEv) (es : List EditEv) :
    runEdits st (e :: es) =
      runEdits (stepEdit st e.code e.language e.time) es := rfl

/-! ## Channel-flag preservation -/

theorem fireDeferred_chan (st : ThrottleState) (t : Nat) (lg : Language) :
    (fireDeferred st t lg).chan = st.chan := by
  cases hp : st.pending with
  | none => rw [fireDeferred_noSend hp]
  | some c =>
    by_cases hch : st.chan = true
    · rw [fireDeferred_send hp hch]
    · unfold fireDeferred
      simp only [hp]
      rw [if_neg hch]

theorem fireDeferred_timer (st : ThrottleState) (t : Nat) (lg : Language) :
    (fireDeferred st t lg).timer = none := by
  cases hp : st.pending with
  | none => rw [fireDeferred_noSend hp]
  | some c =>
    by_cases hch : st.chan = true
    · rw [fireDeferred_send hp hch]
    · unfold fireDeferred
      simp only [hp]
      rw [if_neg hch]

theorem broadcastCodeUpdate_chan (st : ThrottleState) (code : String)
    (lang : Language) (now : Nat) :
    (broadcastCodeUpdate st code lang now).chan = st.chan := by
  by_cases hch : st.chan = true
  · by_cases hw : SYNC_INTERVAL ≤ now - st.lastSync
    · rw [broadcastCodeUpdate_immediate hch hw]
    · rw [broadcastCodeUpdate_deferred hch hw]
  · unfold broadcastCodeUpdate
    rw [if_pos (by simp [Bool.not_eq_true] at hch; simp [hch])]

theorem fireIfDue_chan (st : ThrottleState) (t : Nat) :
    (fireIfDue st t).chan = st.chan := by
  cases ht : st.timer with
  | none => rw [fireIfDue_none ht]
  | some ftp =>
    by_cases hle : ftp.1 ≤ t
    · rw [fireIfDue_due ht hle, fireDeferred_chan]
    · rw [fireIfDue_notDue ht hle]

theorem stepEdit_chan (st : ThrottleState) (code : String) (lang : Language)
    (t : Nat) : (stepEdit st code lang t).chan = st.chan := by
  rw [stepEdit, broadcastCodeUpdate_chan, fireIfDue_chan]

theorem runEdits_chan (st : ThrottleState) (es : List EditEv) :
    (runEdits st es).chan = st.chan := by
  induction es generalizing st with
  | nil => rfl
  | cons e rest ih =>
    rw [runEdits_cons, ih, stepEdit_chan]

/-! ## The spacing invariant -/

theorem spaced_append {l : List CodeMsg} {m : CodeMsg} {ls : Nat}
    (hs : Spaced l) (hle : ∀ x ∈ l, x.time ≤ ls)
    (hm : ls + SYNC_INTERVAL ≤ m.time) : Spaced (l ++ [m]) := by
  rw [Spaced, List.chain'_append]
  refine ⟨hs, List.chain'_singleton m, ?_⟩
  intro x hx y hy
  simp only [List.head?_cons, Option.mem_def, Option.some.injEq] at hy
  have hxl : x ∈ l := List.mem_of_mem_getLast? hx
  have := hle x hxl
  subst hy
  omega

theorem throttleInv_mono {st : ThrottleState} {t t2 : Nat}
    (h : ThrottleInv st t) (ht : t ≤ t2) : ThrottleInv st t2 :=
  ⟨h.chanEq, h.spaced, h.sentLe, le_trans h.lastLe ht, h.timerEq, h.pendTimer⟩

theorem throttleInv_fireDeferred {st : ThrottleState} {t : Nat}
    (h : ThrottleInv st t) {ft : Nat} {lg : Language}
    (htimer : st.timer = some (ft, lg)) (hle : ft ≤ t) :
    ThrottleInv (fireDeferred st ft lg) t := by
  have hft : ft = st.lastSync + SYNC_INTERVAL := h.timerEq ft lg htimer
  cases hp : st.pending with
  | none =>
    rw [fireDeferred_noSend hp]
    refine ⟨h.chanEq, h.spaced, h.sentLe, h.lastLe, ?_, ?_⟩
    · intro ft2 lg2 hh
      cases hh
    · intro hh
      simp only at hh
      rw [hp] at hh
      cases hh
  | some code =>
    rw [fireDeferred_send hp h.chanEq]
    refine ⟨h.chanEq, ?_, ?_, hle, ?_, ?_⟩
    · exact spaced_append h.spaced h.sentLe (le_of_eq hft.symm)
    · intro m hm
      show m.time ≤ ft
      rcases List.mem_append.mp hm with hold | hnew
      · have := h.sentLe m hold
        omega
      · rw [List.mem_singleton] at hnew
        subst hnew
        exact le_refl ft
    · intro ft2 lg2 hh
      cases hh
    · intro hh
      cases hh

theorem throttleInv_broadcast {st : ThrottleState} {t : Nat}
    (h : ThrottleInv st t)
    (hnt : ∀ ft lg, st.timer = some (ft, lg) → t < ft)
    (code : String) (lang : Language) :
    ThrottleInv (broadcastCodeUpdate st code lang t) t := by
  by_cases hw : SYNC_INTERVAL ≤ t - st.lastSync
  · have htn : st.timer = none := by
      cases ht : st.timer with
      | none => rfl
      | some p =>
        have h1 := h.timerEq p.1 p.2 (by rw [ht])
        have h2 := hnt p.1 p.2 (by rw [ht])
        have h3 := h.lastLe
        simp only [SYNC_INTERVAL] at h1 hw
        omega
    rw [broadcastCodeUpdate_immediate h.chanEq hw]
    refine ⟨h.chanEq, ?_, ?_, le_refl t, ?_, ?_⟩
    · refine spaced_append h.spaced h.sentLe ?_
      show st.lastSync + SYNC_INTERVAL ≤ t
      have := h.lastLe
      simp only [SYNC_INTERVAL] at hw ⊢
      omega
    · intro m hm
      show m.time ≤ t
      rcases List.mem_append.mp hm with hold | hnew
      · have h1 := h.sentLe m hold
        have h2 := h.lastLe
        omega
      · rw [List.mem_singleton] at hnew
        subst hnew
        exact le_refl t
    · intro ft2 lg2 hh
      show ft2 = t + SYNC_INTERVAL
      have hh2 : st.timer = some (ft2, lg2) := hh
      rw [htn] at hh2
      cases hh2
    · intro hh
      cases hh
  · rw [broadcastCodeUpdate_deferred h.chanEq hw]
    refine ⟨h.chanEq, h.spaced, h.sentLe, h.lastLe, ?_, ?_⟩
    · intro ft2 lg2 hh
      have hh2 : (t + (SYNC_INTERVAL - (t - st.lastSync)), lang) =
          (ft2, lg2) := by
        exact Option.some.inj hh
      have hft : t + (SYNC_INTERVAL - (t - st.lastSync)) = ft2 :=
        congrArg Prod.fst hh2
      show ft2 = st.lastSync + SYNC_INTERVAL
      have := h.lastLe
      simp only [SYNC_INTERVAL] at hft hw ⊢
      omega
    · intro hh
      simp

theorem throttleInv_stepEdit {st : ThrottleState} {t2 t : Nat}
    {code : String} {lang : Language}
    (h : ThrottleInv st t2) (hle : t2 ≤ t) :
    ThrottleInv (stepEdit st code lang t) t := by
  have h0 : ThrottleInv st t := throttleInv_mono h hle
  rw [stepEdit]
  cases ht : st.timer with
  | none =>
    rw [fireIfDue_none ht]
    refine throttleInv_broadcast h0 ?_ code lang
    intro ft lg hh
    rw [ht] at hh
    cases hh
  | some ftp =>
    by_cases hf : ftp.1 ≤ t
    · rw [fireIfDue_due ht hf]
      have hfire : ThrottleInv (fireDeferred st ftp.1 ftp.2) t :=
        throttleInv_fireDeferred h0 (by rw [ht]) hf
      refine throttleInv_broadcast hfire ?_ code lang
      intro ft lg hh
      rw [fireDeferred_timer] at hh
      cases hh
    · rw [fireIfDue_notDue ht hf]
      refine throttleInv_broadcast h0 ?_ code lang
      intro ft lg hh
      rw [ht] at hh
      have : ftp.1 = ft := congrArg Prod.fst (Option.some.inj hh)
      omega

theorem throttleInv_runEdits {st : ThrottleState} {t : Nat}
    (es : List EditEv) (h : ThrottleInv st t)
    (hm : timesMono t es = true) :
    ThrottleInv (runEdits st es) (endTime t es) := by
  induction es generalizing st t with
  | nil => exact h
  | cons e rest ih =>
    simp only [timesMono, Bool.and_eq_true, decide_eq_true_eq] at hm
    rw [runEdits_cons]
    exact ih (throttleInv_stepEdit h hm.1) hm.2

theorem flushTimer_spaced {st : ThrottleState} {t : Nat}
    (h : ThrottleInv st t) : Spaced (flushTimer st).sent := by
  cases ht : st.timer with
  | none =>
    rw [flushTimer_none ht]
    exact h.spaced
  | some ftp =>
    have hft : ftp.1 = st.lastSync + SYNC_INTERVAL :=
      h.timerEq ftp.1 ftp.2 (by rw [ht])
    rw [flushTimer_fire ht]
    cases hp : st.pending with
    | none =>
      rw [fireDeferred_noSend hp]
      exact h.spaced
    | some code =>
      rw [fireDeferred_send hp h.chanEq]
      exact spaced_append h.spaced h.sentLe (le_of_eq hft.symm)

/-! ## Last-value-wins -/

theorem broadcast_lastWins {st : ThrottleState} (hch : st.chan = true)
    (code : String) (lang : Language) (t : Nat) :
    LastWins (broadcastCodeUpdate st code lang t) code lang := by
  by_cases hw : SYNC_INTERVAL ≤ t - st.lastSync
  · rw [broadcastCodeUpdate_immediate hch hw]
    exact Or.inr ⟨rfl, t, List.getLast?_concat _⟩
  · rw [broadcastCodeUpdate_deferred hch hw]
    exact Or.inl ⟨rfl, _, rfl⟩

theorem stepEdit_lastWins {st : ThrottleState} (hch : st.chan = true)
    (code : String) (lang : Language) (t : Nat) :
    LastWins (stepEdit st code lang t) code lang := by
  rw [stepEdit]
  exact broadcast_lastWins ((fireIfDue_chan st t).trans hch) code lang t



theorem runEdits_lastWins {st : ThrottleState} (hch : st.chan = true)
    (es : List EditEv) (e : EditEv) (hlast : es.getLast? = some e) :
    LastWins (runEdits st es) e.code e.language := by
  induction es generalizing st with
  | nil => cases hlast
  | cons e1 rest ih =>
    cases rest with
    | nil =>
      simp only [List.getLast?_singleton, Option.some.injEq] at hlast
      subst hlast
      exact stepEdit_lastWins hch e1.code e1.language e1.time
    | cons e2 rest2 =>
      rw [List.getLast?_cons_cons] at hlast
      rw [runEdits_cons]
      exact ih ((stepEdit_chan st e1.code e1.language e1.time).trans hch)
        hlast


theorem flushTimer_lastWins {st : ThrottleState} (hch : st.chan = true)
    {code : String} {lang : Language} (h : LastWins st code lang) :
    ∃ t, (flushTimer st).sent.getLast? = some ⟨code, lang, t⟩ := by
  rcases h with ⟨hp, ft, htimer⟩ | ⟨hp, t0, hlastsent⟩
  · rw [flushTimer_fire htimer]
    rw [fireDeferred_send hp hch]
    exact ⟨ft, List.getLast?_concat _⟩
  · cases ht : st.timer with
    | none =>
      rw [flushTimer_none ht]
      exact ⟨t0, hlastsent⟩
    | some ftp =>
      rw [flushTimer_fire ht, fireDeferred_noSend hp]
      exact ⟨t0, hlastsent⟩

/-! ## Counting sends in a spaced log -/

theorem spaced_head_last :
    ∀ (l : List CodeMsg), Spaced l →
      ∀ a, l.head? = some a → ∀ b, l.getLast? = some b →
        a.time + SYNC_INTERVAL * (l.length - 1) ≤ b.time := by
  intro l
  induction l with
  | nil =>
    intro _ a ha
    cases ha
  | cons x rest ih =>
    intro hs a ha b hb
    simp only [List.head?_cons, Option.some.injEq] at ha
    subst ha
    cases rest with
    | nil =>
      simp only [List.getLast?_singleton, Option.some.injEq] at hb
      subst hb
      simp
    | cons y rest2 =>
      rw [Spaced, List.chain'_cons] at hs
      rw [List.getLast?_cons_cons] at hb
      have hmid := ih hs.2 y rfl b hb
      have hxy := hs.1
      simp only [List.length_cons, SYNC_INTERVAL] at hmid hxy ⊢
      omega

theorem spaced_length_le {l : List CodeMsg} (h : Spaced l) {a b : CodeMsg}
    (ha : l.head? = some a) (hb : l.getLast? = some b) {E : Nat}
    (hE : b.time - a.time ≤ E) :
    l.length ≤ (E + (SYNC_INTERVAL - 1)) / SYNC_INTERVAL + 1 := by
  have h1 := spaced_head_last l h a ha b hb
  have hlen : 1 ≤ l.length := by
    cases l
    · cases ha
    · simp
  have h2 : (l.length - 1) * SYNC_INTERVAL ≤ E + (SYNC_INTERVAL - 1) := by
    simp only [SYNC_INTERVAL] at h1 ⊢
    omega
  have h3 : l.length - 1 ≤ (E + (SYNC_INTERVAL - 1)) / SYNC_INTERVAL :=
    (Nat.le_div_iff_mul_le (by simp [SYNC_INTERVAL])).mpr h2
  omega

/-! ## Claim C6: throttle bound and last-value-wins -/

/-- C6: running any burst of local edits (times nondecreasing) through the
throttled code broadcaster and letting the deferred timer fire, every two
consecutive sends are a full sync window apart, so the number of sends is
at most `ceil(elapsed / window) + 1` for any `elapsed` that bounds the span
of the observed sends; and the payload of the final send equals the last
edit's payload (last-value-wins coalescing: a newer pending payload
overwrites any earlier one, with no queueing). -/
theorem throttle_bound (es : List EditEv) (e : EditEv)
    (hmono : timesMono 0 es = true)
    (hlast : es.getLast? = some e) :
    (∃ t, (flushTimer (runEdits throttleInit es)).sent.getLast? =
        some ⟨e.code, e.language, t⟩) ∧
    (∀ (E : Nat) (a b : CodeMsg),
      (flushTimer (runEdits throttleInit es)).sent.head? = some a →
      (flushTimer (runEdits throttleInit es)).sent.getLast? = some b →
      b.time - a.time ≤ E →
      (flushTimer (runEdits throttleInit es)).sent.length ≤
        (E + (SYNC_INTERVAL - 1)) / SYNC_INTERVAL + 1) := by
  have hinv0 : ThrottleInv throttleInit 0 := by
    refine ⟨rfl, ?_, ?_, le_refl 0, ?_, ?_⟩
    · simp [Spaced, throttleInit]
    · intro m hm
      simp [throttleInit] at hm
    · intro ft lg hh
      simp [throttleInit] at hh
    · intro hh
      simp [throttleInit] at hh
  have hinv := throttleInv_runEdits es hinv0 hmono
  constructor
  · exact flushTimer_lastWins ((runEdits_chan throttleInit es).trans rfl)
      (runEdits_lastWins rfl es e hlast)
  · intro E a b ha hb hE
    exact spaced_length_le (flushTimer_spaced hinv) ha hb hE

/-- Witness for C6: two edits 20ms apart; the first is sent at its own
time, the second is coalesced and sent by the deferred timer one window
after the first. -/
theorem throttle_bound_witness :
    timesMono 0 [⟨"a", Language.javascript, 100⟩,
      ⟨"b", Language.javascript, 120⟩] = true ∧
    ((∃ t, (flushTimer (runEdits throttleInit
        [⟨"a", Language.javascript, 100⟩,
          ⟨"b", Language.javascript, 120⟩])).sent.getLast? =
        some ⟨"b", Language.javascript, t⟩) ∧
      (∀ (E : Nat) (a b : CodeMsg),
        (flushTimer (runEdits throttleInit
          [⟨"a", Language.javascript, 100⟩,
            ⟨"b", Language.javascript, 120⟩])).sent.head? = some a →
        (flushTimer (runEdits throttleInit
          [⟨"a", Language.javascript, 100⟩,
            ⟨"b", Language.javascript, 120⟩])).sent.getLast? = some b →
        b.time - a.time ≤ E →
        (flushTimer (runEdits throttleInit
          [⟨"a", Language.javascript, 100⟩,
            ⟨"b", Language.javascript, 120⟩])).sent.length ≤
          (E + (SYNC_INTERVAL - 1)) / SYNC_INTERVAL + 1)) :=
  ⟨by decide, throttle_bound
    [⟨"a", Language.javascript, 100⟩, ⟨"b", Language.javascript, 120⟩]
    ⟨"b", Language.javascript, 120⟩ (by decide) rfl⟩

/-! ## Claim C7: eventual transmission of the latest state -/

/-- C7 counterexample: the whiteboard broadcast path has no pending slot
and no deferred send — a `broadcastWhiteboard` call inside the 100ms
window is dropped outright.  Two calls 50ms apart end with a state
identical to the state after the first call alone, and the latest
snapshot never appears in the send log, refuting the claim that every
broadcaster path eventually transmits the last local state. -/
theorem whiteboard_drop_counterexample :
    broadcastWhiteboard (broadcastWhiteboard
        ⟨true, 0, none, []⟩ ⟨[⟨"s1", "p1"⟩]⟩ 100) ⟨[⟨"s2", "p2"⟩]⟩ 150 =
      ⟨true, 100, some ⟨[⟨"s1", "p1"⟩]⟩, [(⟨[⟨"s1", "p1"⟩]⟩, 100)]⟩ ∧
    (∀ p ∈ (broadcastWhiteboard (broadcastWhiteboard
        ⟨true, 0, none, []⟩ ⟨[⟨"s1", "p1"⟩]⟩ 100)
        ⟨[⟨"s2", "p2"⟩]⟩ 150).sent,
      p.1 ≠ (⟨[⟨"s2", "p2"⟩]⟩ : WhiteboardSnapshot)) :=
  ⟨rfl, by decide⟩

/-- C7 (amended): for the throttled **code** broadcaster the guarantee
holds: after any sequence of local edits from any connected state, even
when the last edit's immediate send was suppressed by the window, the
deferred send fires for the pending payload and the last edit's payload is
the final message sent; the whiteboard path, by contrast, drops in-window
calls without deferral. -/
theorem deferred_send_eventual (st : ThrottleState) (hch : st.chan = true)
    (es : List EditEv) (e : EditEv) (hlast : es.getLast? = some e) :
    ∃ t, (flushTimer (runEdits st es)).sent.getLast? =
      some ⟨e.code, e.language, t⟩ :=
  flushTimer_lastWins ((runEdits_chan st es).trans hch)
    (runEdits_lastWins hch es e hlast)

/-- Witness for C7's amended claim: a single edit inside the window is
suppressed, and the deferred fire still transmits it. -/
theorem deferred_send_eventual_witness :
    throttleInit.chan = true ∧
    (∃ t, (flushTimer (runEdits throttleInit
        [⟨"c", Language.python, 10⟩])).sent.getLast? =
      some ⟨"c", Language.python, t⟩) :=
  ⟨rfl, deferred_send_eventual throttleInit rfl
    [⟨"c", Language.python, 10⟩] ⟨"c", Language.python, 10⟩ rfl⟩

end CollabCanvas
